import Mathlib

/-!
# deb-builder: digest engine, archive writer identities and control assembler

A shallow embedding of

* `pkg/hash/hash.go`        (`CalcMultiHash`),
* `pkg/control/other.go`    (`NewOther`, `Other.WriteTo`, `Other.List`),
* the behaviour of `archive.Writer` exercised by `pkg/archive/writer_test.go`,

together with the parts of the Go standard library they call
(`crypto/md5`, `crypto/sha1`, `crypto/sha256`, `encoding/hex`, `io.Copy`,
`io.MultiWriter`, `os.Open`, `os.WriteFile`, `sort.Slice`, `bytes.Buffer`).

Conventions.  A Go `[]byte` is a `List Nat` (each element is read modulo 256),
a Go `string` is a Lean `String`, a Go `error` is an `Option Error`
(`none` is `nil`).  Code with effects on the operating system takes the state
of the operating system as an argument and returns the new one.
-/

namespace DebBuilder

/-- A Go `error` value that is not `nil`. -/
abbrev Error := String

/-! ## Bytes of a string -/

/-- UTF-8 encoding of one code point: the bytes a Go string holds for it. -/
def utf8Char (c : Char) : List Nat :=
  let n := c.toNat
  if n < 128 then [n]
  else if n < 2048 then [192 + n / 64, 128 + n % 64]
  else if n < 65536 then [224 + n / 4096, 128 + n / 64 % 64, 128 + n % 64]
  else [240 + n / 262144, 128 + n / 4096 % 64, 128 + n / 64 % 64, 128 + n % 64]

/-- Go's `[]byte(s)`. -/
def bytes (s : String) : List Nat :=
  s.toList.flatMap utf8Char

/-- Lexicographic "less than" on byte sequences. -/
def lexLess : List Nat → List Nat → Bool
  | _, [] => false
  | [], _ :: _ => true
  | x :: xs, y :: ys => decide (x < y) || (x == y && lexLess xs ys)

/-- Go's `a < b` on strings: the lexicographic order of their bytes. -/
def stringLess (a b : String) : Bool :=
  lexLess (bytes a) (bytes b)

/-! ## Word arithmetic shared by the digests -/

/-- Little-endian bytes of a 32-bit word. -/
def le32 (x : Nat) : List Nat :=
  [x % 256, x / 256 % 256, x / 65536 % 256, x / 16777216 % 256]

/-- Big-endian bytes of a 32-bit word. -/
def be32 (x : Nat) : List Nat :=
  [x / 16777216 % 256, x / 65536 % 256, x / 256 % 256, x % 256]

/-- Little-endian bytes of a 64-bit word. -/
def le64 (x : Nat) : List Nat :=
  le32 (x % 4294967296) ++ le32 (x / 4294967296 % 4294967296)

/-- Big-endian bytes of a 64-bit word. -/
def be64 (x : Nat) : List Nat :=
  be32 (x / 4294967296 % 4294967296) ++ be32 (x % 4294967296)

/-- Bitwise complement of a 32-bit word. -/
def not32 (x : Nat) : Nat :=
  4294967295 - x % 4294967296

/-- Rotation of a 32-bit word to the left (`bits.RotateLeft32`). -/
def rotl32 (x n : Nat) : Nat :=
  ((x <<< n) ||| (x >>> (32 - n))) % 4294967296

/-- Rotation of a 32-bit word to the right. -/
def rotr32 (x n : Nat) : Nat :=
  ((x >>> n) ||| (x <<< (32 - n))) % 4294967296

/-- Little-endian 32-bit words of a byte sequence. -/
def wordsLE : List Nat → List Nat
  | b0 :: b1 :: b2 :: b3 :: rest =>
      (b0 % 256 + 256 * (b1 % 256) + 65536 * (b2 % 256) + 16777216 * (b3 % 256)) :: wordsLE rest
  | _ => []

/-- Big-endian 32-bit words of a byte sequence. -/
def wordsBE : List Nat → List Nat
  | b0 :: b1 :: b2 :: b3 :: rest =>
      (16777216 * (b0 % 256) + 65536 * (b1 % 256) + 256 * (b2 % 256) + b3 % 256) :: wordsBE rest
  | _ => []

/-- The successive 64-byte blocks of a byte sequence; `fuel` bounds their number. -/
def blocks64 : Nat → List Nat → List (List Nat)
  | 0, _ => []
  | fuel + 1, bs => if bs.length < 64 then [] else bs.take 64 :: blocks64 fuel (bs.drop 64)

/-- Message padding of MD5: a one bit, zeros up to 56 modulo 64, the bit length
in 64 bits, little-endian. -/
def padLE (msg : List Nat) : List Nat :=
  let n := msg.length
  msg ++ [128] ++ List.replicate ((119 - n % 64) % 64) 0 ++ le64 (8 * n)

/-- Message padding of SHA-1 and SHA-256: as for MD5 with a big-endian length. -/
def padBE (msg : List Nat) : List Nat :=
  let n := msg.length
  msg ++ [128] ++ List.replicate ((119 - n % 64) % 64) 0 ++ be64 (8 * n)

/-! ## crypto/md5 -/

namespace md5

/-- The sine table of RFC 1321. -/
def T : List Nat := [
  0xd76aa478, 0xe8c7b756, 0x242070db, 0xc1bdceee, 0xf57c0faf, 0x4787c62a, 0xa8304613, 0xfd469501,
  0x698098d8, 0x8b44f7af, 0xffff5bb1, 0x895cd7be, 0x6b901122, 0xfd987193, 0xa679438e, 0x49b40821,
  0xf61e2562, 0xc040b340, 0x265e5a51, 0xe9b6c7aa, 0xd62f105d, 0x02441453, 0xd8a1e681, 0xe7d3fbc8,
  0x21e1cde6, 0xc33707d6, 0xf4d50d87, 0x455a14ed, 0xa9e3e905, 0xfcefa3f8, 0x676f02d9, 0x8d2a4c8a,
  0xfffa3942, 0x8771f681, 0x6d9d6122, 0xfde5380c, 0xa4beea44, 0x4bdecfa9, 0xf6bb4b60, 0xbebfbc70,
  0x289b7ec6, 0xeaa127fa, 0xd4ef3085, 0x04881d05, 0xd9d4d039, 0xe6db99e5, 0x1fa27cf8, 0xc4ac5665,
  0xf4292244, 0x432aff97, 0xab9423a7, 0xfc93a039, 0x655b59c3, 0x8f0ccc92, 0xffeff47d, 0x85845dd1,
  0x6fa87e4f, 0xfe2ce6e0, 0xa3014314, 0x4e0811a1, 0xf7537e82, 0xbd3af235, 0x2ad7d2bb, 0xeb86d391]

/-- The per-step rotation amounts of RFC 1321. -/
def S : List Nat := [
  7, 12, 17, 22, 7, 12, 17, 22, 7, 12, 17, 22, 7, 12, 17, 22,
  5, 9, 14, 20, 5, 9, 14, 20, 5, 9, 14, 20, 5, 9, 14, 20,
  4, 11, 16, 23, 4, 11, 16, 23, 4, 11, 16, 23, 4, 11, 16, 23,
  6, 10, 15, 21, 6, 10, 15, 21, 6, 10, 15, 21, 6, 10, 15, 21]

/-- The four chaining words. -/
structure State where
  a : Nat
  b : Nat
  c : Nat
  d : Nat

/-- The initial chaining value. -/
def init : State :=
  ⟨0x67452301, 0xefcdab89, 0x98badcfe, 0x10325476⟩

/-- Step `i` (0 to 63) of the compression of a block with message words `m`. -/
def step (m : List Nat) (s : State) (i : Nat) : State :=
  let f :=
    if i < 16 then (s.b &&& s.c) ||| (not32 s.b &&& s.d)
    else if i < 32 then (s.d &&& s.b) ||| (not32 s.d &&& s.c)
    else if i < 48 then s.b ^^^ s.c ^^^ s.d
    else s.c ^^^ (s.b ||| not32 s.d)
  let g :=
    if i < 16 then i
    else if i < 32 then (5 * i + 1) % 16
    else if i < 48 then (3 * i + 5) % 16
    else (7 * i) % 16
  let x := (s.a + f + T.getD i 0 + m.getD g 0) % 4294967296
  ⟨s.d, (s.b + rotl32 x (S.getD i 0)) % 4294967296, s.b, s.c⟩

/-- Compression of one 64-byte block. -/
def block (s : State) (blk : List Nat) : State :=
  let m := wordsLE blk
  let r := (List.range 64).foldl (step m) s
  ⟨(s.a + r.a) % 4294967296, (s.b + r.b) % 4294967296,
   (s.c + r.c) % 4294967296, (s.d + r.d) % 4294967296⟩

/-- The function `md5.Sum`: the 16-byte MD5 digest of `msg`. -/
def Sum (msg : List Nat) : List Nat :=
  let p := padLE msg
  let s := (blocks64 p.length p).foldl block init
  le32 s.a ++ le32 s.b ++ le32 s.c ++ le32 s.d

end md5

/-! ## crypto/sha1 -/

namespace sha1

/-- The five chaining words. -/
structure State where
  h0 : Nat
  h1 : Nat
  h2 : Nat
  h3 : Nat
  h4 : Nat

/-- The initial chaining value. -/
def init : State :=
  ⟨0x67452301, 0xEFCDAB89, 0x98BADCFE, 0x10325476, 0xC3D2E1F0⟩

/-- The 80 words of the message schedule of a block. -/
def schedule (blk : List Nat) : List Nat :=
  (List.range 64).foldl
    (fun w i =>
      w ++ [rotl32 (w.getD (i + 13) 0 ^^^ w.getD (i + 8) 0 ^^^ w.getD (i + 2) 0 ^^^ w.getD i 0) 1])
    (wordsBE blk)

/-- Round `i` (0 to 79) with schedule `w`. -/
def step (w : List Nat) (s : State) (i : Nat) : State :=
  let f :=
    if i < 20 then (s.h1 &&& s.h2) ||| (not32 s.h1 &&& s.h3)
    else if i < 40 then s.h1 ^^^ s.h2 ^^^ s.h3
    else if i < 60 then (s.h1 &&& s.h2) ||| (s.h1 &&& s.h3) ||| (s.h2 &&& s.h3)
    else s.h1 ^^^ s.h2 ^^^ s.h3
  let k :=
    if i < 20 then 0x5A827999
    else if i < 40 then 0x6ED9EBA1
    else if i < 60 then 0x8F1BBCDC
    else 0xCA62C1D6
  let t := (rotl32 s.h0 5 + f + s.h4 + k + w.getD i 0) % 4294967296
  ⟨t, s.h0, rotl32 s.h1 30, s.h2, s.h3⟩

/-- Compression of one 64-byte block. -/
def block (s : State) (blk : List Nat) : State :=
  let w := schedule blk
  let r := (List.range 80).foldl (step w) s
  ⟨(s.h0 + r.h0) % 4294967296, (s.h1 + r.h1) % 4294967296, (s.h2 + r.h2) % 4294967296,
   (s.h3 + r.h3) % 4294967296, (s.h4 + r.h4) % 4294967296⟩

/-- The function `sha1.Sum`: the 20-byte SHA-1 digest of `msg`. -/
def Sum (msg : List Nat) : List Nat :=
  let p := padBE msg
  let s := (blocks64 p.length p).foldl block init
  be32 s.h0 ++ be32 s.h1 ++ be32 s.h2 ++ be32 s.h3 ++ be32 s.h4

end sha1

/-! ## crypto/sha256 -/

namespace sha256

/-- The round constants of FIPS 180-4. -/
def K : List Nat := [
  0x428a2f98, 0x71374491, 0xb5c0fbcf, 0xe9b5dba5, 0x3956c25b, 0x59f111f1, 0x923f82a4, 0xab1c5ed5,
  0xd807aa98, 0x12835b01, 0x243185be, 0x550c7dc3, 0x72be5d74, 0x80deb1fe, 0x9bdc06a7, 0xc19bf174,
  0xe49b69c1, 0xefbe4786, 0x0fc19dc6, 0x240ca1cc, 0x2de92c6f, 0x4a7484aa, 0x5cb0a9dc, 0x76f988da,
  0x983e5152, 0xa831c66d, 0xb00327c8, 0xbf597fc7, 0xc6e00bf3, 0xd5a79147, 0x06ca6351, 0x14292967,
  0x27b70a85, 0x2e1b2138, 0x4d2c6dfc, 0x53380d13, 0x650a7354, 0x766a0abb, 0x81c2c92e, 0x92722c85,
  0xa2bfe8a1, 0xa81a664b, 0xc24b8b70, 0xc76c51a3, 0xd192e819, 0xd6990624, 0xf40e3585, 0x106aa070,
  0x19a4c116, 0x1e376c08, 0x2748774c, 0x34b0bcb5, 0x391c0cb3, 0x4ed8aa4a, 0x5b9cca4f, 0x682e6ff3,
  0x748f82ee, 0x78a5636f, 0x84c87814, 0x8cc70208, 0x90befffa, 0xa4506ceb, 0xbef9a3f7, 0xc67178f2]

/-- The eight chaining words. -/
structure State where
  a : Nat
  b : Nat
  c : Nat
  d : Nat
  e : Nat
  f : Nat
  g : Nat
  h : Nat

/-- The initial chaining value. -/
def init : State :=
  ⟨0x6a09e667, 0xbb67ae85, 0x3c6ef372, 0xa54ff53a, 0x510e527f, 0x9b05688c, 0x1f83d9ab, 0x5be0cd19⟩

/-- The 64 words of the message schedule of a block. -/
def schedule (blk : List Nat) : List Nat :=
  (List.range 48).foldl
    (fun w i =>
      let x15 := w.getD (i + 1) 0
      let x2 := w.getD (i + 14) 0
      let s0 := rotr32 x15 7 ^^^ rotr32 x15 18 ^^^ (x15 >>> 3)
      let s1 := rotr32 x2 17 ^^^ rotr32 x2 19 ^^^ (x2 >>> 10)
      w ++ [(w.getD i 0 + s0 + w.getD (i + 9) 0 + s1) % 4294967296])
    (wordsBE blk)

/-- Round `i` (0 to 63) with schedule `w`. -/
def step (w : List Nat) (s : State) (i : Nat) : State :=
  let s1 := rotr32 s.e 6 ^^^ rotr32 s.e 11 ^^^ rotr32 s.e 25
  let ch := (s.e &&& s.f) ^^^ (not32 s.e &&& s.g)
  let t1 := (s.h + s1 + ch + K.getD i 0 + w.getD i 0) % 4294967296
  let s0 := rotr32 s.a 2 ^^^ rotr32 s.a 13 ^^^ rotr32 s.a 22
  let maj := (s.a &&& s.b) ^^^ (s.a &&& s.c) ^^^ (s.b &&& s.c)
  let t2 := (s0 + maj) % 4294967296
  ⟨(t1 + t2) % 4294967296, s.a, s.b, s.c, (s.d + t1) % 4294967296, s.e, s.f, s.g⟩

/-- Compression of one 64-byte block. -/
def block (s : State) (blk : List Nat) : State :=
  let w := schedule blk
  let r := (List.range 64).foldl (step w) s
  ⟨(s.a + r.a) % 4294967296, (s.b + r.b) % 4294967296, (s.c + r.c) % 4294967296,
   (s.d + r.d) % 4294967296, (s.e + r.e) % 4294967296, (s.f + r.f) % 4294967296,
   (s.g + r.g) % 4294967296, (s.h + r.h) % 4294967296⟩

/-- The function `sha256.Sum256`: the 32-byte SHA-256 digest of `msg`. -/
def Sum256 (msg : List Nat) : List Nat :=
  let p := padBE msg
  let s := (blocks64 p.length p).foldl block init
  be32 s.a ++ be32 s.b ++ be32 s.c ++ be32 s.d ++ be32 s.e ++ be32 s.f ++ be32 s.g ++ be32 s.h

end sha256

/-! ## encoding/hex -/

namespace hex

/-- The constant `hextable` of `encoding/hex`. -/
def hextable : List Char :=
  "0123456789abcdef".toList

/-- The function `hex.EncodeToString`: two characters of `hextable` per byte, high nibble first. -/
def EncodeToString (src : List Nat) : String :=
  String.mk (src.flatMap fun v => [hextable.getD (v / 16 % 16) '0', hextable.getD (v % 16) '0'])

end hex

/-! ## hash.Hash, io.MultiWriter, io.Copy and os.Open -/

/-- A `hash.Hash` accumulator: the digest function it computes and the bytes
written to it so far. -/
structure Hash where
  digest : List Nat → List Nat
  written : List Nat

/-- The method `Write` of a hash: never fails, appends to the accumulated input. -/
def Hash.Write (h : Hash) (p : List Nat) : Hash :=
  { h with written := h.written ++ p }

/-- The method `Sum(b)` of a hash: appends the digest of everything written so far to `b`. -/
def Hash.Sum (h : Hash) (b : List Nat) : List Nat :=
  b ++ h.digest h.written

/-- The constructor `md5.New()`. -/
def md5.New : Hash :=
  ⟨md5.Sum, []⟩

/-- The constructor `sha1.New()`. -/
def sha1.New : Hash :=
  ⟨sha1.Sum, []⟩

/-- The constructor `sha256.New()`. -/
def sha256.New : Hash :=
  ⟨sha256.Sum256, []⟩

/-- An opened file as a reader: the byte chunks successive `Read` calls
deliver, followed by `io.EOF` (`fault = none`) or by a read error. -/
structure File where
  reads : List (List Nat)
  fault : Option Error

/-- The operating system as seen through `os.Open`: what the `n`-th attempt to
open a name answers, and how many attempts were made on each name so far. -/
structure OS where
  respond : String → Nat → Except Error File
  opens : String → Nat

/-- The call `os.Open(name)`: one attempt on `name`. -/
def osOpen (os : OS) (name : String) : Except Error File × OS :=
  (os.respond name (os.opens name),
   { os with opens := fun n => if n = name then os.opens n + 1 else os.opens n })

/-- The writer `io.MultiWriter(md5h, sha1h, sha256h)`: its three targets. -/
structure MultiWriter where
  w1 : Hash
  w2 : Hash
  w3 : Hash

/-- The method `Write` of the multi-writer: the same bytes go to each target in turn. -/
def MultiWriter.Write (m : MultiWriter) (p : List Nat) : MultiWriter :=
  ⟨m.w1.Write p, m.w2.Write p, m.w3.Write p⟩

/-- The loop of `io.Copy(dst, src)` for a destination whose `Write` is `write`
and never fails: every chunk read is written to `dst`; the loop ends at
`io.EOF` with a nil error, or at a read error, which it returns. -/
def ioCopy {σ : Type} (write : σ → List Nat → σ) (dst : σ) (reads : List (List Nat))
    (fault : Option Error) : σ × Option Error :=
  match reads with
  | [] => (dst, fault)
  | chunk :: rest => ioCopy write (write dst chunk) rest fault

/-! ## pkg/hash -/

namespace hash

/-- The struct `MultiHash`. -/
structure MultiHash where
  MD5 : String
  SHA1 : String
  SHA256 : String
deriving DecidableEq

/-- The function `CalcMultiHash` of `pkg/hash/hash.go`: the `MultiHash` and the
error returned, and the operating system after the call. -/
def CalcMultiHash (os : OS) (filename : String) : (MultiHash × Option Error) × OS :=
  let mh : MultiHash := ⟨"", "", ""⟩
  match osOpen os filename with
  | (.error err, os1) => ((mh, some err), os1)
  | (.ok fd, os1) =>
    let md5h := md5.New
    let sha1h := sha1.New
    let sha256h := sha256.New
    let multiWriter : MultiWriter := ⟨md5h, sha1h, sha256h⟩
    match ioCopy MultiWriter.Write multiWriter fd.reads fd.fault with
    | (_, some err) => ((mh, some err), os1)
    | (mw, none) =>
      (({ MD5 := hex.EncodeToString (mw.w1.Sum []),
          SHA1 := hex.EncodeToString (mw.w2.Sum []),
          SHA256 := hex.EncodeToString (mw.w3.Sum []) }, none), os1)

end hash

/-! ## pkg/archive -/

namespace archive

/-- Modelled from the spec: one entry of the tar stream written by
`archive.Writer` (`pkg/archive/writer.go` is not among the sources): "a tar
header (path, size ...) followed by the raw bytes". -/
structure Entry where
  Name : String
  Size : Nat
  Data : List Nat
deriving DecidableEq

/-- Modelled from the spec: the type `archive.Writer` (`pkg/archive/writer.go`
is not among the sources, only its test is).  "The open output resource;
lifecycle is open, zero-or-more entry writes, close"; "the archive itself is
append-only". -/
structure Writer where
  closed : Bool
  entries : List Entry

/-- Modelled from the spec: the destination of the copy in `Writer.WriteFile`
(`pkg/archive/writer.go` is not among the sources), "copies its bytes into the
archive stream while simultaneously digesting them in one pass": the payload
sent to the tar layer and the digest accumulator, fed by the same chunks. -/
structure Tee where
  payload : List Nat
  h : Hash

/-- Modelled from the spec: `Write` on the destination of the copy in
`Writer.WriteFile` (`pkg/archive/writer.go` is not among the sources): the
chunk goes to the tar layer and to the digest. -/
def Tee.Write (t : Tee) (p : List Nat) : Tee :=
  ⟨t.payload ++ p, t.h.Write p⟩

/-- Modelled from the spec: `Writer.WriteData` (`pkg/archive/writer.go` is not
among the sources).  "Writes a tar header (path, size = length of bytes)
followed by the raw bytes ... and returns (entryPath, identity)"; "calling
write after close is an error"; the identity of the reference behaviour is "the
hexadecimal encoding of the raw content bytes concatenated with the 128-bit
digest of an empty input (a hash accumulator consuming an already-drained
source)". -/
def WriteData (v : Writer) (filename : String) (b : List Nat) :
    (String × String × Option Error) × Writer :=
  if v.closed then (("", "", some "archive: write after close"), v)
  else
    let entry : Entry := ⟨filename, b.length, b⟩
    let drained : List Nat := []
    let h := md5.New.Write drained
    ((filename, hex.EncodeToString (h.Sum b), none), { v with entries := v.entries ++ [entry] })

/-- Modelled from the spec: `Writer.WriteFile` (`pkg/archive/writer.go` is not
among the sources).  "Opens sourcePath, reads its size to populate the tar
header, copies its bytes into the archive stream while simultaneously digesting
them in one pass, and returns (entryPath, identity). Fails if sourcePath does
not exist or cannot be read"; the identity is the 128-bit digest in hex. -/
def WriteFile (v : Writer) (os : OS) (source entryPath : String) :
    (String × String × Option Error) × Writer × OS :=
  if v.closed then (("", "", some "archive: write after close"), v, os)
  else
    match osOpen os source with
    | (.error err, os1) => (("", "", some err), v, os1)
    | (.ok fd, os1) =>
      match ioCopy Tee.Write ⟨[], md5.New⟩ fd.reads fd.fault with
      | (t, some err) =>
        (("", "", some err),
         { v with entries := v.entries ++ [⟨entryPath, fd.reads.flatten.length, t.payload⟩] }, os1)
      | (t, none) =>
        ((entryPath, hex.EncodeToString (t.h.Sum []), none),
         { v with entries := v.entries ++ [⟨entryPath, fd.reads.flatten.length, t.payload⟩] }, os1)

end archive

/-! ## pkg/config -/

namespace config

/-- Modelled from the spec: the control section of `config.Config`
(`pkg/config` is not among the sources): "an ordered set of configuration-file
paths, and four optional source-file paths for maintainer lifecycle scripts".
The field names are those `pkg/control/other.go` reads; `rest` stands for the
fields it does not mention. -/
structure Control (κ : Type) where
  Conffiles : List String
  PreInstall : String
  PostInstall : String
  PreRemove : String
  PostRemove : String
  rest : κ

/-- Modelled from the spec: the struct `config.Config` (`pkg/config` is not
among the sources); `rest` stands for the fields besides `Control`. -/
structure Config (κ γ : Type) where
  Control : Control κ
  rest : γ

end config

/-! ## The file system seen by pkg/control -/

/-- How a failing write ends: the error returned, and what it leaves at the
destination path (`none`: the path is untouched; `some d`: the file was
created or truncated and holds `d`). -/
structure Fault where
  err : Error
  leftover : Option String

/-- The file system: the regular files with their content, and which writes and
copies fail. -/
structure World where
  files : String → Option String
  writeFault : String → Option Fault
  copyFault : String → String → Option Fault

/-- The file system with `data` stored at `name`. -/
def World.put (w : World) (name data : String) : World :=
  { w with files := fun p => if p = name then some data else w.files p }

/-- The file system after a write to `name` failed with `f`. -/
def World.fail (w : World) (name : String) (f : Fault) : World :=
  match f.leftover with
  | none => w
  | some d => w.put name d

/-- The regular file a path names; the empty path names none. -/
def World.stat (w : World) (path : String) : Option String :=
  if path = "" then none else w.files path

/-- The call `os.WriteFile(name, data, perm)`: the error returned and the file
system after the call. -/
def osWriteFile (name data : String) (w : World) : Option Error × World :=
  match w.writeFault name with
  | some f => (some f.err, w.fail name f)
  | none => (none, w.put name data)

/-- The call `buf.WriteString(s)` on a `bytes.Buffer`: appends; the error is always nil. -/
def bufWriteString (buf s : String) : String × Option Error :=
  (buf ++ s, none)

/-- The call `sort.Slice(xs, less)`: the elements of `xs` rearranged so that no element
is `less` than one before it. -/
def sortSlice (less : String → String → Bool) (xs : List String) : List String :=
  xs.insertionSort (fun a b => less b a = false)

/-! ## pkg/utils -/

namespace utils

/-- Modelled from the spec: `utils.FileExist` (`pkg/utils` is not among the
sources): "if the configured source path exists". -/
def FileExist (path : String) (w : World) : Bool :=
  (w.stat path).isSome

/-- Modelled from the spec: `utils.CopyFile` (`pkg/utils` is not among the
sources): "copy its content verbatim to the corresponding fixed destination
name"; "any write or copy failure ... is surfaced to the caller". -/
def CopyFile (src dst : String) (w : World) : Option Error × World :=
  match w.stat src with
  | none => (some ("open " ++ src ++ ": no such file or directory"), w)
  | some data =>
    match w.copyFault src dst with
    | some f => (some f.err, w.fail dst f)
    | none => (none, w.put dst data)

end utils

/-! ## pkg/control -/

namespace control

/-- The struct `Other`.  `conf` is a pointer in the source: the configuration
held here is the caller's, and the one in the value returned by `WriteTo` is
what the caller sees afterwards. -/
structure Other (κ γ : Type) where
  conf : config.Config κ γ
  files : List String

/-- The struct `copyFile`. -/
structure copyFile where
  Src : String
  Dst : String
deriving DecidableEq

/-- The constructor `NewOther`. -/
def NewOther {κ γ : Type} (conf : config.Config κ γ) : Other κ γ :=
  { conf := conf, files := [] }

/-- The loop `for _, filename := range v.conf.Control.Conffiles` of `WriteTo`:
one line per name, leaving at the first failing `WriteString`. -/
def writeLines (FullPath : String → String) : List String → String → Option Error × String
  | [], buf => (none, buf)
  | filename :: rest, buf =>
    match bufWriteString buf (FullPath filename ++ "\n") with
    | (buf1, some err) => (some err, buf1)
    | (buf1, none) => writeLines FullPath rest buf1

/-- The slice `files` of `WriteTo`: the four maintainer scripts in order. -/
def scriptFiles {κ γ : Type} (conf : config.Config κ γ) (dir : String) : List copyFile :=
  [ { Src := conf.Control.PreInstall, Dst := dir ++ "/preinst" },
    { Src := conf.Control.PostInstall, Dst := dir ++ "/postinst" },
    { Src := conf.Control.PreRemove, Dst := dir ++ "/prerm" },
    { Src := conf.Control.PostRemove, Dst := dir ++ "/postrm" } ]

/-- The body of the loop `for _, file := range files` of `WriteTo`. -/
def copyStep (file : copyFile) (w : World) : Option Error × World :=
  if utils.FileExist file.Src w then utils.CopyFile file.Src file.Dst w else (none, w)

/-- The loop `for _, file := range files` of `WriteTo`, leaving at the first
error. -/
def copyLoop : List copyFile → World → Option Error × World
  | [], w => (none, w)
  | file :: rest, w =>
    match copyStep file w with
    | (some err, w1) => (some err, w1)
    | (none, w1) => copyLoop rest w1

/-- The second half of `WriteTo` (from `files := []copyFile` on). -/
def copyScripts {κ γ : Type} (v : Other κ γ) (dir : String) (w : World) :
    Option Error × Other κ γ × World :=
  let files := scriptFiles v.conf dir
  match copyLoop files w with
  | (err, w1) => (err, v, w1)

/-- The configuration after `v.conf.Control.Conffiles` was overwritten in place
with `l`; nothing else of it changes. -/
def withConffiles {κ γ : Type} (conf : config.Config κ γ) (l : List String) :
    config.Config κ γ :=
  { conf with Control := { conf.Control with Conffiles := l } }

/-- The block `if len(v.conf.Control.Conffiles) > 0` of `WriteTo`.  `FullPath`
is `utils.FullPath`, whose source is not among the files.  The result is the
error with which the block makes `WriteTo` return (`none`: the block falls
through), the receiver and the file system after the block. -/
def writeConffiles {κ γ : Type} (FullPath : String → String) (v : Other κ γ) (dir : String)
    (w : World) : Option Error × Other κ γ × World :=
  let buf := ""
  if v.conf.Control.Conffiles.length > 0 then
    let conffilesFile := dir ++ "/conffiles"
    let sorted := sortSlice (fun a b => stringLess a b) v.conf.Control.Conffiles
    let v1 : Other κ γ := { v with conf := withConffiles v.conf sorted }
    match writeLines FullPath v1.conf.Control.Conffiles buf with
    | (some err, _) => (some err, v1, w)
    | (none, buf1) =>
      match osWriteFile conffilesFile buf1 w with
      | (some err, w1) => (some err, v1, w1)
      | (none, w1) => (none, { v1 with files := v1.files ++ [conffilesFile] }, w1)
  else
    (none, v, w)

/-- The method `Other.WriteTo`: the conffiles block, then the maintainer
scripts.  The result is the error returned, the receiver (with the caller's
configuration) and the file system after the call. -/
def WriteTo {κ γ : Type} (FullPath : String → String) (v : Other κ γ) (dir : String)
    (w : World) : Option Error × Other κ γ × World :=
  match writeConffiles FullPath v dir w with
  | (some err, v1, w1) => (some err, v1, w1)
  | (none, v1, w1) => copyScripts v1 dir w1

/-- The method `Other.List`. -/
def Other.List {κ γ : Type} (v : Other κ γ) : List String :=
  v.files

/-! ### Concrete inputs -/

/-- A file system without faults holding one script, `pre.sh`. -/
def exampleWorld : World :=
  { files := fun p => if p = "pre.sh" then some "#!/bin/sh\n" else none
    writeFault := fun _ => none
    copyFault := fun _ _ => none }

/-- A configuration listing the conffiles `b` and `a`, with `pre.sh` as its
pre-install script, no post-install and pre-remove script, and a post-remove
script that does not exist. -/
def exampleConfig : config.Config Unit Unit :=
  { Control :=
      { Conffiles := ["b", "a"], PreInstall := "pre.sh", PostInstall := "", PreRemove := "",
        PostRemove := "missing.sh", rest := () }
    rest := () }

/-- Modelled from the spec: one `utils.FullPath` (`pkg/utils` is not among the
sources), "each path normalized to its canonical absolute form": a path that
starts with `/` is kept, any other path gets a leading `/`. -/
def slashFullPath (p : String) : String :=
  match p.toList with
  | '/' :: _ => p
  | _ => "/" ++ p

/-- The example configuration with the conffiles `a` and `/b`. -/
def slashConfig : config.Config Unit Unit :=
  withConffiles exampleConfig ["a", "/b"]

/-- The lines of a text, read from the characters `cs` with `cur` the
characters of the current line in reverse: each newline ends a line. -/
def splitLines : List Char → List Char → List String
  | cur, [] => if cur = [] then [] else [String.mk cur.reverse]
  | cur, c :: cs => if c = '\n' then String.mk cur.reverse :: splitLines [] cs
      else splitLines (c :: cur) cs

/-- The lines of a file content, without their newlines. -/
def textLines (content : String) : List String :=
  splitLines [] content.toList

/-- A file system holding `pre.sh`, `post.sh` and `rm.sh` in which the copy of
`post.sh` to `stage/postinst` fails, leaving an empty `stage/postinst`. -/
def faultyWorld : World :=
  { files := fun p =>
      if p = "pre.sh" then some "#!/bin/sh\n"
      else if p = "post.sh" then some "exit 0\n"
      else if p = "rm.sh" then some "exit 1\n"
      else none
    writeFault := fun _ => none
    copyFault := fun src dst =>
      if src = "post.sh" ∧ dst = "stage/postinst" then some ⟨"no space left on device", some ""⟩
      else none }

/-- A configuration with the conffiles `b` and `a` and the scripts `pre.sh`,
`post.sh` and `rm.sh` (post-remove). -/
def scriptedConfig : config.Config Unit Unit :=
  { Control :=
      { Conffiles := ["b", "a"], PreInstall := "pre.sh", PostInstall := "post.sh",
        PreRemove := "", PostRemove := "rm.sh", rest := () }
    rest := () }

end control

/-- The operating system of `TestTarGZ`: `/tmp/test.txt` holds `aaaaa`, read in
two chunks; no other file exists. -/
def testOS : OS :=
  { respond := fun n _ =>
      if n = "/tmp/test.txt" then .ok ⟨[bytes "aaa", bytes "aa"], none⟩
      else .error "open: no such file or directory"
    opens := fun _ => 0 }

end DebBuilder

/-! # Theorems -/

namespace DebBuilder

set_option maxRecDepth 100000

/-! ## Digest sizes and hexadecimal encoding -/

theorem le32_length (x : Nat) : (le32 x).length = 4 := rfl

theorem be32_length (x : Nat) : (be32 x).length = 4 := rfl

theorem padLE_length_mod (msg : List Nat) : (padLE msg).length % 64 = 0 := by
  simp only [padLE, le64, List.length_append, List.length_cons, List.length_nil,
    List.length_replicate, le32_length]
  omega

theorem padBE_length_mod (msg : List Nat) : (padBE msg).length % 64 = 0 := by
  simp only [padBE, be64, List.length_append, List.length_cons, List.length_nil,
    List.length_replicate, be32_length]
  omega

/-- With enough fuel the blocks are the whole sequence. -/
theorem blocks64_flatten (fuel : Nat) (bs : List Nat) (hfuel : bs.length ≤ 64 * fuel)
    (hmod : bs.length % 64 = 0) : (blocks64 fuel bs).flatten = bs := by
  induction fuel generalizing bs with
  | zero =>
    have : bs = [] := List.eq_nil_of_length_eq_zero (by omega)
    subst this
    rfl
  | succ fuel ih =>
    unfold blocks64
    split_ifs with hlt
    · have : bs = [] := List.eq_nil_of_length_eq_zero (by omega)
      subst this
      rfl
    · rw [List.flatten_cons, ih (bs.drop 64) (by rw [List.length_drop]; omega)
        (by rw [List.length_drop]; omega), List.take_append_drop]

/-- The fuel the digests give `blocks64` is enough: every block of the padded
message is compressed. -/
theorem blocks64_pad (msg : List Nat) :
    (blocks64 (padLE msg).length (padLE msg)).flatten = padLE msg ∧
    (blocks64 (padBE msg).length (padBE msg)).flatten = padBE msg :=
  ⟨blocks64_flatten _ _ (by omega) (padLE_length_mod msg),
   blocks64_flatten _ _ (by omega) (padBE_length_mod msg)⟩

theorem md5_Sum_length (msg : List Nat) : (md5.Sum msg).length = 16 := by
  simp [md5.Sum, le32_length]

theorem sha1_Sum_length (msg : List Nat) : (sha1.Sum msg).length = 20 := by
  simp [sha1.Sum, be32_length]

theorem sha256_Sum256_length (msg : List Nat) : (sha256.Sum256 msg).length = 32 := by
  simp [sha256.Sum256, be32_length]

theorem EncodeToString_toList (src : List Nat) :
    (hex.EncodeToString src).toList =
      src.flatMap fun v =>
        [hex.hextable.getD (v / 16 % 16) '0', hex.hextable.getD (v % 16) '0'] := rfl

theorem EncodeToString_length (src : List Nat) :
    (hex.EncodeToString src).length = 2 * src.length := by
  show (src.flatMap _).length = _
  induction src with
  | nil => rfl
  | cons v rest ih => simp only [List.flatMap_cons, List.length_append, ih, List.length_cons,
      List.length_nil]; omega

theorem EncodeToString_append (a b : List Nat) :
    hex.EncodeToString (a ++ b) = hex.EncodeToString a ++ hex.EncodeToString b := by
  apply String.ext
  show (a ++ b).flatMap _ = a.flatMap _ ++ b.flatMap _
  exact List.flatMap_append a b _

theorem hextable_getD_mem (k : Nat) (hk : k < 16) :
    hex.hextable.getD k '0' ∈ "0123456789abcdef".toList := by
  interval_cases k <;> decide

theorem EncodeToString_lowercase (src : List Nat) :
    ∀ ch ∈ (hex.EncodeToString src).toList, ch ∈ "0123456789abcdef".toList := by
  intro ch hch
  rw [EncodeToString_toList, List.mem_flatMap] at hch
  obtain ⟨v, _, hv⟩ := hch
  simp only [List.mem_cons, List.mem_singleton, List.not_mem_nil, or_false] at hv
  rcases hv with rfl | rfl
  · exact hextable_getD_mem _ (Nat.mod_lt _ (by decide))
  · exact hextable_getD_mem _ (Nat.mod_lt _ (by decide))

/-! ## io.Copy -/

theorem ioCopy_eq {σ : Type} (write : σ → List Nat → σ) (dst : σ) (reads : List (List Nat))
    (fault : Option Error) : ioCopy write dst reads fault = (reads.foldl write dst, fault) := by
  induction reads generalizing dst with
  | nil => rfl
  | cons chunk rest ih => simp [ioCopy, ih]

theorem foldl_Hash_Write (h : Hash) (reads : List (List Nat)) :
    reads.foldl Hash.Write h = ⟨h.digest, h.written ++ reads.flatten⟩ := by
  induction reads generalizing h with
  | nil => simp
  | cons chunk rest ih => simp [ih, Hash.Write]

theorem foldl_MultiWriter_Write (m : MultiWriter) (reads : List (List Nat)) :
    reads.foldl MultiWriter.Write m =
      ⟨reads.foldl Hash.Write m.w1, reads.foldl Hash.Write m.w2, reads.foldl Hash.Write m.w3⟩ := by
  induction reads generalizing m with
  | nil => rfl
  | cons chunk rest ih => simp [ih, MultiWriter.Write]

/-! ## pkg/hash: CalcMultiHash -/

theorem md5_Sum_nil : hex.EncodeToString (md5.Sum []) = "d41d8cd98f00b204e9800998ecf8427e" := by
  decide

theorem CalcMultiHash_open_error (os : OS) (filename : String) (e : Error)
    (h : (osOpen os filename).1 = .error e) :
    hash.CalcMultiHash os filename = ((⟨"", "", ""⟩, some e), (osOpen os filename).2) := by
  unfold hash.CalcMultiHash
  rcases hc : osOpen os filename with ⟨r, os1⟩
  rw [hc] at h
  simp only at h
  subst h
  rfl

theorem CalcMultiHash_opened (os : OS) (filename : String) (fd : File)
    (h : (osOpen os filename).1 = .ok fd) :
    hash.CalcMultiHash os filename =
      (match fd.fault with
       | some e => ((⟨"", "", ""⟩, some e), (osOpen os filename).2)
       | none =>
         ((⟨hex.EncodeToString (md5.Sum fd.reads.flatten),
            hex.EncodeToString (sha1.Sum fd.reads.flatten),
            hex.EncodeToString (sha256.Sum256 fd.reads.flatten)⟩, none),
          (osOpen os filename).2)) := by
  unfold hash.CalcMultiHash
  rcases hc : osOpen os filename with ⟨r, os1⟩
  rw [hc] at h
  simp only at h
  subst h
  simp only [ioCopy_eq, foldl_MultiWriter_Write, foldl_Hash_Write]
  cases fd.fault <;> simp [Hash.Sum, md5.New, sha1.New, sha256.New]

/-- C4: `CalcMultiHash` returns an error exactly when the file cannot be opened
or a read of it fails; the error is the one the operating system gave, the file
is opened once only, and the `MultiHash` returned with an error has its three
fields empty.  Otherwise, for the file content `c` (the bytes the reads
deliver), the result is the hexadecimal encoding of `md5(c)`, `sha1(c)` and
`sha256(c)`, all over the same `c`; these encodings have 32, 40 and 64
characters, all among `0123456789abcdef`. -/
theorem CalcMultiHash_spec (os : OS) (filename : String) :
    (∀ e, (osOpen os filename).1 = .error e →
      (hash.CalcMultiHash os filename).1 = (⟨"", "", ""⟩, some e)) ∧
    (∀ fd e, (osOpen os filename).1 = .ok fd → fd.fault = some e →
      (hash.CalcMultiHash os filename).1 = (⟨"", "", ""⟩, some e)) ∧
    (∀ fd, (osOpen os filename).1 = .ok fd → fd.fault = none →
      (hash.CalcMultiHash os filename).1 =
        (⟨hex.EncodeToString (md5.Sum fd.reads.flatten),
          hex.EncodeToString (sha1.Sum fd.reads.flatten),
          hex.EncodeToString (sha256.Sum256 fd.reads.flatten)⟩, none)) ∧
    ((hash.CalcMultiHash os filename).1.2 ≠ none ↔
      ((∃ e, (osOpen os filename).1 = .error e) ∨
        ∃ fd e, (osOpen os filename).1 = .ok fd ∧ fd.fault = some e)) ∧
    (∀ c : List Nat,
      (hex.EncodeToString (md5.Sum c)).length = 32 ∧
      (hex.EncodeToString (sha1.Sum c)).length = 40 ∧
      (hex.EncodeToString (sha256.Sum256 c)).length = 64 ∧
      (∀ ch ∈ (hex.EncodeToString (md5.Sum c)).toList, ch ∈ "0123456789abcdef".toList) ∧
      (∀ ch ∈ (hex.EncodeToString (sha1.Sum c)).toList, ch ∈ "0123456789abcdef".toList) ∧
      (∀ ch ∈ (hex.EncodeToString (sha256.Sum256 c)).toList, ch ∈ "0123456789abcdef".toList)) ∧
    (hash.CalcMultiHash os filename).2.opens filename = os.opens filename + 1 := by
  refine ⟨?_, ?_, ?_, ?_, ?_, ?_⟩
  · intro e h
    rw [CalcMultiHash_open_error os filename e h]
  · intro fd e h hf
    rw [CalcMultiHash_opened os filename fd h, hf]
  · intro fd h hf
    rw [CalcMultiHash_opened os filename fd h, hf]
  · rcases hr : (osOpen os filename).1 with e | fd
    · rw [CalcMultiHash_open_error os filename e hr]
      simp
    · rw [CalcMultiHash_opened os filename fd hr]
      cases hf : fd.fault <;> simp [hf]
  · intro c
    refine ⟨?_, ?_, ?_, EncodeToString_lowercase _, EncodeToString_lowercase _,
      EncodeToString_lowercase _⟩
    · rw [EncodeToString_length, md5_Sum_length]
    · rw [EncodeToString_length, sha1_Sum_length]
    · rw [EncodeToString_length, sha256_Sum256_length]
  · rcases hr : (osOpen os filename).1 with e | fd
    · rw [CalcMultiHash_open_error os filename e hr]
      simp [osOpen]
    · rw [CalcMultiHash_opened os filename fd hr]
      cases hf : fd.fault <;> simp [osOpen]

/-- The digests of a file holding `aaaaa`, and the error for a missing file. -/
theorem CalcMultiHash_spec_witness :
    (hash.CalcMultiHash testOS "/tmp/test.txt").1 =
      (⟨"594f803b380a41396ed63dca39503542", "df51e37c269aa94d38f93e537bf6e2020b21406c",
        "ed968e840d10d2d313a870bc131a4e2c311d7ad09bdf32b3418147221f51a6e2"⟩, none) ∧
    (hash.CalcMultiHash testOS "/tmp/none.txt").1 =
      (⟨"", "", ""⟩, some "open: no such file or directory") :=
  ⟨((CalcMultiHash_spec testOS "/tmp/test.txt").2.2.1
      ⟨[bytes "aaa", bytes "aa"], none⟩ rfl rfl).trans (by decide),
   (CalcMultiHash_spec testOS "/tmp/none.txt").1 _ rfl⟩

/-! ## pkg/archive: identities returned by the writer -/

/-- C5: on an open archive, `WriteFile(source, p)` of a readable file with
content `c` returns `(p, identity)` with a nil error, where `identity` is the
hexadecimal MD5 digest of `c`: 32 characters among `0123456789abcdef`, the same
for every entry path, source path, archive and file system that deliver the
same content. -/
theorem WriteFile_identity (v : archive.Writer) (os : OS) (source p : String) (fd : File)
    (hopen : v.closed = false) (hfd : (osOpen os source).1 = .ok fd) (hread : fd.fault = none) :
    (archive.WriteFile v os source p).1 =
        (p, hex.EncodeToString (md5.Sum fd.reads.flatten), none) ∧
    (hex.EncodeToString (md5.Sum fd.reads.flatten)).length = 32 ∧
    (∀ ch ∈ (hex.EncodeToString (md5.Sum fd.reads.flatten)).toList,
      ch ∈ "0123456789abcdef".toList) ∧
    (∀ (v2 : archive.Writer) (os2 : OS) (source2 p2 : String) (fd2 : File),
      v2.closed = false → (osOpen os2 source2).1 = .ok fd2 → fd2.fault = none →
      fd2.reads.flatten = fd.reads.flatten →
      (archive.WriteFile v2 os2 source2 p2).1.2.1 = (archive.WriteFile v os source p).1.2.1) := by
  have key : ∀ (v : archive.Writer) (os : OS) (source p : String) (fd : File),
      v.closed = false → (osOpen os source).1 = .ok fd → fd.fault = none →
      (archive.WriteFile v os source p).1 =
        (p, hex.EncodeToString (md5.Sum fd.reads.flatten), none) := by
    intro v os source p fd hopen hfd hread
    unfold archive.WriteFile
    rcases hc : osOpen os source with ⟨r, os1⟩
    rw [hc] at hfd
    simp only at hfd
    subst hfd
    have hfold : ∀ (reads : List (List Nat)) (t : archive.Tee),
        reads.foldl archive.Tee.Write t =
          ⟨t.payload ++ reads.flatten, ⟨t.h.digest, t.h.written ++ reads.flatten⟩⟩ := by
      intro reads
      induction reads with
      | nil => intro t; simp
      | cons chunk rest ih => intro t; simp [ih, archive.Tee.Write, Hash.Write]
    simp [hopen, ioCopy_eq, hread, hfold, Hash.Sum, md5.New]
  refine ⟨key v os source p fd hopen hfd hread, ?_, EncodeToString_lowercase _, ?_⟩
  · rw [EncodeToString_length, md5_Sum_length]
  · intro v2 os2 source2 p2 fd2 h1 h2 h3 h4
    rw [key v2 os2 source2 p2 fd2 h1 h2 h3, key v os source p fd hopen hfd hread, h4]

/-- The file system of `TestTarGZ`: `/tmp/test.txt` holds `aaaaa`. -/
theorem WriteFile_identity_witness :
    (archive.WriteFile ⟨false, []⟩
        ⟨fun n _ => if n = "/tmp/test.txt" then .ok ⟨[bytes "aaaaa"], none⟩
          else .error "open: no such file or directory", fun _ => 0⟩
        "/tmp/test.txt" "var/log/test.log").1 =
      ("var/log/test.log", "594f803b380a41396ed63dca39503542", none) :=
  ((WriteFile_identity ⟨false, []⟩
      ⟨fun n _ => if n = "/tmp/test.txt" then .ok ⟨[bytes "aaaaa"], none⟩
        else .error "open: no such file or directory", fun _ => 0⟩
      "/tmp/test.txt" "var/log/test.log" ⟨[bytes "aaaaa"], none⟩ rfl rfl rfl).1).trans
    (by decide)

/-- C6: on an open archive, `WriteData(p, B)` returns `(p, identity)` with a
nil error, where `identity` is the hexadecimal encoding of the bytes of `B`
followed by the hexadecimal MD5 digest of the empty input,
`d41d8cd98f00b204e9800998ecf8427e`. -/
theorem WriteData_identity (v : archive.Writer) (p : String) (B : List Nat)
    (hopen : v.closed = false) :
    (archive.WriteData v p B).1 =
        (p, hex.EncodeToString B ++ "d41d8cd98f00b204e9800998ecf8427e", none) ∧
    hex.EncodeToString (md5.Sum []) = "d41d8cd98f00b204e9800998ecf8427e" := by
  refine ⟨?_, md5_Sum_nil⟩
  unfold archive.WriteData
  simp only [hopen, Bool.false_eq_true, if_false, Hash.Sum, Hash.Write, md5.New,
    List.append_nil, EncodeToString_append, md5_Sum_nil]

/-- The call of `TestTarGZ`: `WriteData("hello.txt", []byte("bbbbb"))`. -/
theorem WriteData_identity_witness :
    (archive.WriteData ⟨false, []⟩ "hello.txt" (bytes "bbbbb")).1 =
      ("hello.txt", "6262626262d41d8cd98f00b204e9800998ecf8427e", none) :=
  ((WriteData_identity ⟨false, []⟩ "hello.txt" (bytes "bbbbb") rfl).1).trans (by decide)

/-! ## The order of Go strings -/

theorem utf8Char_ne_nil (c : Char) : utf8Char c ≠ [] := by
  unfold utf8Char
  simp only
  split_ifs <;> simp

theorem utf8Char_append_inj (c d : Char) (r s : List Nat)
    (h : utf8Char c ++ r = utf8Char d ++ s) : c = d ∧ r = s := by
  have hn : c.toNat = d.toNat ∧ r = s := by
    unfold utf8Char at h
    simp only at h
    split_ifs at h <;>
      simp only [List.cons_append, List.nil_append, List.cons.injEq] at h <;>
      first
      | (exfalso; omega)
      | (refine ⟨by omega, ?_⟩; simp_all)
  refine ⟨?_, hn.2⟩
  rw [← Char.ofNat_toNat c, ← Char.ofNat_toNat d, hn.1]

theorem flatMap_utf8Char_inj (l m : List Char)
    (h : l.flatMap utf8Char = m.flatMap utf8Char) : l = m := by
  induction l generalizing m with
  | nil =>
    cases m with
    | nil => rfl
    | cons d m =>
      exfalso
      simp only [List.flatMap_nil, List.flatMap_cons] at h
      have := congrArg List.length h
      have hd := utf8Char_ne_nil d
      cases hu : utf8Char d with
      | nil => exact hd hu
      | cons x xs => rw [hu] at this; simp at this
  | cons c l ih =>
    cases m with
    | nil =>
      exfalso
      simp only [List.flatMap_nil, List.flatMap_cons] at h
      have hc := utf8Char_ne_nil c
      cases hu : utf8Char c with
      | nil => exact hc hu
      | cons x xs => rw [hu] at h; simp at h
    | cons d m =>
      simp only [List.flatMap_cons] at h
      obtain ⟨hcd, hrest⟩ := utf8Char_append_inj c d _ _ h
      rw [hcd, ih m hrest]

theorem bytes_inj (a b : String) (h : bytes a = bytes b) : a = b :=
  String.ext (flatMap_utf8Char_inj _ _ h)

theorem lexLess_irrefl (xs : List Nat) : lexLess xs xs = false := by
  induction xs with
  | nil => rfl
  | cons x xs ih => simp [lexLess, ih]

theorem lexLess_antisymm (xs ys : List Nat) (h1 : lexLess xs ys = false)
    (h2 : lexLess ys xs = false) : xs = ys := by
  induction xs generalizing ys with
  | nil =>
    cases ys with
    | nil => rfl
    | cons y ys => simp [lexLess] at h1
  | cons x xs ih =>
    cases ys with
    | nil => simp [lexLess] at h2
    | cons y ys =>
      simp only [lexLess, Bool.or_eq_false_iff, decide_eq_false_iff_not, Bool.and_eq_false_imp,
        beq_iff_eq] at h1 h2
      have hxy : x = y := by omega
      subst hxy
      rw [ih ys (h1.2 rfl) (h2.2 rfl)]

theorem lexLess_total (xs ys : List Nat) : lexLess xs ys = false ∨ lexLess ys xs = false := by
  induction xs generalizing ys with
  | nil =>
    cases ys with
    | nil => left; rfl
    | cons y ys => right; rfl
  | cons x xs ih =>
    cases ys with
    | nil => left; rfl
    | cons y ys =>
      simp only [lexLess, Bool.or_eq_false_iff, decide_eq_false_iff_not, Bool.and_eq_false_imp,
        beq_iff_eq]
      rcases Nat.lt_trichotomy x y with hlt | heq | hgt
      · right
        exact ⟨by omega, fun h => by omega⟩
      · subst heq
        rcases ih ys with h | h
        · left; exact ⟨by omega, fun _ => h⟩
        · right; exact ⟨by omega, fun _ => h⟩
      · left
        exact ⟨by omega, fun h => by omega⟩

theorem lexLess_trans (xs ys zs : List Nat) (h1 : lexLess ys xs = false)
    (h2 : lexLess zs ys = false) : lexLess zs xs = false := by
  induction xs generalizing ys zs with
  | nil => cases zs <;> rfl
  | cons x xs ih =>
    cases ys with
    | nil => simp [lexLess] at h1
    | cons y ys =>
      cases zs with
      | nil => simp [lexLess] at h2
      | cons z zs =>
        simp only [lexLess, Bool.or_eq_false_iff, decide_eq_false_iff_not, Bool.and_eq_false_imp,
          beq_iff_eq] at h1 h2 ⊢
        refine ⟨by omega, fun hzx => ?_⟩
        subst hzx
        have hy : y = z := by omega
        subst hy
        exact ih ys zs (h1.2 rfl) (h2.2 rfl)

/-- The relation "`a` is not after `b`" the sort establishes between an element
and every later one: `b < a` is false. -/
theorem notAfter_total : IsTotal String (fun a b => stringLess b a = false) :=
  ⟨fun a b => (lexLess_total (bytes b) (bytes a))⟩

theorem notAfter_trans : IsTrans String (fun a b => stringLess b a = false) :=
  ⟨fun a b c h1 h2 => lexLess_trans (bytes a) (bytes b) (bytes c) h1 h2⟩

theorem notAfter_antisymm : IsAntisymm String (fun a b => stringLess b a = false) :=
  ⟨fun a b h1 h2 => bytes_inj a b (lexLess_antisymm (bytes a) (bytes b) h2 h1)⟩

/-! ## sort.Slice -/

theorem sortSlice_sorted (xs : List String) :
    List.Sorted (fun a b => stringLess b a = false) (sortSlice (fun a b => stringLess a b) xs) :=
  @List.sorted_insertionSort _ _ _ notAfter_total notAfter_trans xs

theorem sortSlice_perm (xs : List String) :
    List.Perm (sortSlice (fun a b => stringLess a b) xs) xs :=
  List.perm_insertionSort _ xs

/-- Any arrangement of `xs` in which no element is less than one before it is
the one `sortSlice` returns: the result does not depend on the algorithm. -/
theorem sortSlice_unique (xs ys : List String) (hp : List.Perm ys xs)
    (hs : List.Sorted (fun a b => stringLess b a = false) ys) :
    ys = sortSlice (fun a b => stringLess a b) xs :=
  @List.eq_of_perm_of_sorted _ _ notAfter_antisymm _ _ (hp.trans (sortSlice_perm xs).symm) hs
    (sortSlice_sorted xs)

theorem sortSlice_of_perm (xs ys : List String) (hp : List.Perm xs ys) :
    sortSlice (fun a b => stringLess a b) xs = sortSlice (fun a b => stringLess a b) ys :=
  sortSlice_unique ys _ ((sortSlice_perm xs).trans hp) (sortSlice_sorted xs)

/-! ## Strings and paths -/

theorem String_append_left_cancel (a b c : String) (h : a ++ b = a ++ c) : b = c := by
  apply String.ext
  have := congrArg String.data h
  simpa using this

theorem staged_ne (dir a b : String) (h : a ≠ b) : dir ++ a ≠ dir ++ b :=
  fun heq => h (String_append_left_cancel dir a b heq)

theorem String_join_cons (a : String) (l : List String) :
    String.join (a :: l) = a ++ String.join l := by
  apply String.ext
  simp [String.data_join]

theorem String_join_nil : String.join [] = "" := rfl

/-! ## The file system -/

theorem put_files_same (w : World) (name data : String) :
    (w.put name data).files name = some data := by
  simp [World.put]

theorem put_files_other (w : World) (name data p : String) (h : p ≠ name) :
    (w.put name data).files p = w.files p := by
  simp [World.put, h]

theorem fail_files_other (w : World) (name : String) (f : Fault) (p : String) (h : p ≠ name) :
    (w.fail name f).files p = w.files p := by
  unfold World.fail
  cases f.leftover with
  | none => rfl
  | some d => exact put_files_other w name d p h

theorem put_faults (w : World) (name data : String) :
    (w.put name data).writeFault = w.writeFault ∧ (w.put name data).copyFault = w.copyFault :=
  ⟨rfl, rfl⟩

theorem fail_faults (w : World) (name : String) (f : Fault) :
    (w.fail name f).writeFault = w.writeFault ∧ (w.fail name f).copyFault = w.copyFault := by
  unfold World.fail
  cases f.leftover <;> exact ⟨rfl, rfl⟩

theorem stat_eq_of_files_eq (w1 w2 : World) (p : String) (h : w1.files p = w2.files p) :
    w1.stat p = w2.stat p := by
  unfold World.stat
  rw [h]

theorem FileExist_empty (w : World) : utils.FileExist "" w = false := by
  simp [utils.FileExist, World.stat]

theorem osWriteFile_ok (name data : String) (w : World) (h : w.writeFault name = none) :
    osWriteFile name data w = (none, w.put name data) := by
  simp [osWriteFile, h]

theorem osWriteFile_fault (name data : String) (w : World) (f : Fault)
    (h : w.writeFault name = some f) :
    osWriteFile name data w = (some f.err, w.fail name f) := by
  simp [osWriteFile, h]

theorem osWriteFile_frame (name data : String) (w : World) (p : String) (h : p ≠ name) :
    (osWriteFile name data w).2.files p = w.files p := by
  unfold osWriteFile
  cases w.writeFault name with
  | none => exact put_files_other w name data p h
  | some f => exact fail_files_other w name f p h

/-! ## pkg/control: the loops of WriteTo -/

namespace control

theorem writeLines_eq (FullPath : String → String) (ps : List String) (buf : String) :
    writeLines FullPath ps buf =
      (none, buf ++ String.join (ps.map fun p => FullPath p ++ "\n")) := by
  induction ps generalizing buf with
  | nil => simp [writeLines, String_join_nil]
  | cons p rest ih =>
    simp only [writeLines, bufWriteString, ih, List.map_cons, String_join_cons,
      String.append_assoc]

/-- What the body of the script loop does: nothing for a source that does not
exist, an error for a failing copy, and otherwise the content of the source at
the destination. -/
theorem copyStep_cases (file : copyFile) (w : World) :
    (utils.FileExist file.Src w = false ∧ copyStep file w = (none, w)) ∨
    (∃ data flt, w.stat file.Src = some data ∧ w.copyFault file.Src file.Dst = some flt ∧
      copyStep file w = (some flt.err, w.fail file.Dst flt)) ∨
    (∃ data, w.stat file.Src = some data ∧ w.copyFault file.Src file.Dst = none ∧
      copyStep file w = (none, w.put file.Dst data)) := by
  unfold copyStep utils.FileExist utils.CopyFile
  cases hs : w.stat file.Src with
  | none => left; simp
  | some data =>
    right
    cases hf : w.copyFault file.Src file.Dst with
    | none => right; exact ⟨data, rfl, rfl, by simp⟩
    | some flt => left; exact ⟨data, flt, rfl, rfl, by simp⟩

theorem copyStep_frame (file : copyFile) (w : World) (p : String) (h : p ≠ file.Dst) :
    (copyStep file w).2.files p = w.files p := by
  rcases copyStep_cases file w with ⟨_, hc⟩ | ⟨_, flt, _, _, hc⟩ | ⟨data, _, _, hc⟩
  · rw [hc]
  · rw [hc]; exact fail_files_other w _ flt p h
  · rw [hc]; exact put_files_other w _ data p h

theorem copyLoop_cons (file : copyFile) (rest : List copyFile) (w : World) :
    copyLoop (file :: rest) w =
      (match (copyStep file w).1 with
       | some err => (some err, (copyStep file w).2)
       | none => copyLoop rest (copyStep file w).2) := by
  rcases hc : copyStep file w with ⟨e, w1⟩
  cases e <;> simp [copyLoop, hc]

theorem copyLoop_frame (fs : List copyFile) (w : World) (p : String)
    (h : ∀ f ∈ fs, p ≠ f.Dst) : (copyLoop fs w).2.files p = w.files p := by
  induction fs generalizing w with
  | nil => rfl
  | cons file rest ih =>
    have hrest : ∀ f ∈ rest, p ≠ f.Dst := fun f hf => h f (List.mem_cons_of_mem _ hf)
    have hfile : p ≠ file.Dst := h file (List.mem_cons_self _ _)
    rw [copyLoop_cons]
    cases he : (copyStep file w).1 with
    | some err => exact copyStep_frame file w p hfile
    | none => simp only [ih _ hrest]; exact copyStep_frame file w p hfile

/-- The loop over `pre ++ f :: post` when `pre` goes through: it continues from
`f` in the file system `pre` left. -/
theorem copyLoop_append (pre post : List copyFile) (w : World)
    (h : (copyLoop pre w).1 = none) :
    copyLoop (pre ++ post) w = copyLoop post (copyLoop pre w).2 := by
  induction pre generalizing w with
  | nil => rfl
  | cons file rest ih =>
    rw [copyLoop_cons] at h
    simp only [List.cons_append, copyLoop_cons file]
    cases he : (copyStep file w).1 with
    | some err => rw [he] at h; simp at h
    | none =>
      rw [he] at h
      simp only at h ⊢
      exact ih _ h

/-- A loop that returns no error went through each prefix without error. -/
theorem copyLoop_prefix_ok (pre post : List copyFile) (w : World)
    (h : (copyLoop (pre ++ post) w).1 = none) : (copyLoop pre w).1 = none := by
  induction pre generalizing w with
  | nil => rfl
  | cons file rest ih =>
    simp only [List.cons_append, copyLoop_cons file] at h ⊢
    cases he : (copyStep file w).1 with
    | some err => rw [he] at h; simp at h
    | none =>
      rw [he] at h
      simp only at h ⊢
      exact ih _ h

/-! ## pkg/control: the two halves of WriteTo -/

/-- The conffiles block: it does nothing for an empty list; otherwise it sorts
the caller's list and either fails on the write or stores the sorted lines and
records the file. -/
theorem writeConffiles_cases {κ γ : Type} (FullPath : String → String) (v : Other κ γ)
    (dir : String) (w : World) :
    (v.conf.Control.Conffiles = [] ∧ writeConffiles FullPath v dir w = (none, v, w)) ∨
    (v.conf.Control.Conffiles ≠ [] ∧ ∃ flt, w.writeFault (dir ++ "/conffiles") = some flt ∧
      writeConffiles FullPath v dir w =
        (some flt.err,
         { v with conf := (withConffiles v.conf
            (sortSlice (fun a b => stringLess a b) v.conf.Control.Conffiles)) },
         w.fail (dir ++ "/conffiles") flt)) ∨
    (v.conf.Control.Conffiles ≠ [] ∧ w.writeFault (dir ++ "/conffiles") = none ∧
      writeConffiles FullPath v dir w =
        (none,
         { conf := (withConffiles v.conf
            (sortSlice (fun a b => stringLess a b) v.conf.Control.Conffiles)),
           files := v.files ++ [dir ++ "/conffiles"] },
         w.put (dir ++ "/conffiles")
           (String.join ((sortSlice (fun a b => stringLess a b) v.conf.Control.Conffiles).map
             fun p => FullPath p ++ "\n")))) := by
  unfold writeConffiles
  cases hl : v.conf.Control.Conffiles with
  | nil => left; simp
  | cons a l =>
    right
    simp only [List.length_cons, gt_iff_lt, Nat.zero_lt_succ, if_true, writeLines_eq,
      withConffiles, String.empty_append]
    cases hf : w.writeFault (dir ++ "/conffiles") with
    | some flt =>
      left
      refine ⟨by simp, flt, rfl, ?_⟩
      rw [osWriteFile_fault _ _ _ flt hf]
    | none =>
      right
      refine ⟨by simp, rfl, ?_⟩
      rw [osWriteFile_ok _ _ _ hf]

theorem writeConffiles_frame {κ γ : Type} (FullPath : String → String) (v : Other κ γ)
    (dir : String) (w : World) (p : String) (h : p ≠ dir ++ "/conffiles") :
    (writeConffiles FullPath v dir w).2.2.files p = w.files p := by
  rcases writeConffiles_cases FullPath v dir w with ⟨_, hc⟩ | ⟨_, flt, _, hc⟩ | ⟨_, _, hc⟩
  · rw [hc]
  · rw [hc]; exact fail_files_other w _ flt p h
  · rw [hc]; exact put_files_other w _ _ p h

theorem writeConffiles_conf {κ γ : Type} (FullPath : String → String) (v : Other κ γ)
    (dir : String) (w : World) :
    (writeConffiles FullPath v dir w).2.1.conf =
      if v.conf.Control.Conffiles = [] then v.conf
      else withConffiles v.conf (sortSlice (fun a b => stringLess a b) v.conf.Control.Conffiles) := by
  rcases writeConffiles_cases FullPath v dir w with ⟨h, hc⟩ | ⟨h, flt, _, hc⟩ | ⟨h, _, hc⟩ <;>
    rw [hc] <;> simp [h]

theorem writeConffiles_scriptFiles {κ γ : Type} (FullPath : String → String) (v : Other κ γ)
    (dir : String) (w : World) :
    scriptFiles (writeConffiles FullPath v dir w).2.1.conf dir = scriptFiles v.conf dir := by
  rw [writeConffiles_conf]
  split_ifs <;> rfl

theorem WriteTo_eq {κ γ : Type} (FullPath : String → String) (v : Other κ γ) (dir : String)
    (w : World) :
    WriteTo FullPath v dir w =
      (match (writeConffiles FullPath v dir w).1 with
       | some err =>
         (some err, (writeConffiles FullPath v dir w).2.1, (writeConffiles FullPath v dir w).2.2)
       | none =>
         ((copyLoop (scriptFiles v.conf dir) (writeConffiles FullPath v dir w).2.2).1,
          (writeConffiles FullPath v dir w).2.1,
          (copyLoop (scriptFiles v.conf dir) (writeConffiles FullPath v dir w).2.2).2)) := by
  have hs := writeConffiles_scriptFiles FullPath v dir w
  unfold WriteTo
  rcases hc : writeConffiles FullPath v dir w with ⟨e, v1, w1⟩
  rw [hc] at hs
  cases e with
  | some err => rfl
  | none => simp only [copyScripts]; simp only at hs; rw [hs]

/-- The receiver after `WriteTo` is the receiver after the conffiles block. -/
theorem WriteTo_receiver {κ γ : Type} (FullPath : String → String) (v : Other κ γ)
    (dir : String) (w : World) :
    (WriteTo FullPath v dir w).2.1 = (writeConffiles FullPath v dir w).2.1 := by
  rw [WriteTo_eq]
  cases (writeConffiles FullPath v dir w).1 <;> rfl

/-- A successful `WriteTo` went through the conffiles block and the whole
script loop without error. -/
theorem WriteTo_ok {κ γ : Type} (FullPath : String → String) (v : Other κ γ) (dir : String)
    (w : World) (hok : (WriteTo FullPath v dir w).1 = none) :
    (writeConffiles FullPath v dir w).1 = none ∧
    (copyLoop (scriptFiles v.conf dir) (writeConffiles FullPath v dir w).2.2).1 = none ∧
    (WriteTo FullPath v dir w).2.2 =
      (copyLoop (scriptFiles v.conf dir) (writeConffiles FullPath v dir w).2.2).2 := by
  rw [WriteTo_eq] at hok ⊢
  cases he : (writeConffiles FullPath v dir w).1 with
  | some err => rw [he] at hok; simp at hok
  | none => rw [he] at hok; exact ⟨rfl, hok, rfl⟩

/-- The five paths `WriteTo` writes to are pairwise different. -/
theorem scriptFiles_Dst {κ γ : Type} (conf : config.Config κ γ) (dir : String) :
    (∀ g ∈ scriptFiles conf dir, g.Dst ≠ dir ++ "/conffiles") ∧
    ((scriptFiles conf dir).map copyFile.Dst).Nodup := by
  have ne : ∀ a b : String, a ≠ b → dir ++ a ≠ dir ++ b := staged_ne dir
  constructor
  · intro g hg
    simp only [scriptFiles, List.mem_cons, List.mem_singleton, List.not_mem_nil, or_false] at hg
    rcases hg with rfl | rfl | rfl | rfl <;> exact ne _ _ (by decide)
  · simp only [scriptFiles, List.map_cons, List.map_nil, List.nodup_cons, List.mem_cons,
      List.mem_singleton, List.not_mem_nil, not_or, not_false_eq_true, List.nodup_nil, and_true]
    exact ⟨⟨ne _ _ (by decide), ne _ _ (by decide), ne _ _ (by decide)⟩,
      ⟨ne _ _ (by decide), ne _ _ (by decide)⟩, ne _ _ (by decide)⟩

/-- In a split `pre ++ f :: post` of the script list, the destination of `f` is
none of the other destinations, nor the conffiles file. -/
theorem split_Dst {κ γ : Type} (conf : config.Config κ γ) (dir : String)
    (pre post : List copyFile) (f : copyFile) (hsplit : scriptFiles conf dir = pre ++ f :: post) :
    f.Dst ≠ dir ++ "/conffiles" ∧ (∀ g ∈ pre, f.Dst ≠ g.Dst) ∧ (∀ g ∈ post, f.Dst ≠ g.Dst) ∧
    (∀ g ∈ post, g.Dst ≠ dir ++ "/conffiles") ∧ (∀ g ∈ post, ∀ g2 ∈ pre, g.Dst ≠ g2.Dst) := by
  obtain ⟨hcf, hnd⟩ := scriptFiles_Dst conf dir
  rw [hsplit] at hcf hnd
  simp only [List.map_append, List.map_cons] at hnd
  have hnd2 := List.nodup_append.mp hnd
  have hnd3 := List.nodup_cons.mp hnd2.2.1
  refine ⟨hcf f (by simp), ?_, ?_, fun g hg => hcf g (by simp [hg]), ?_⟩
  · intro g hg heq
    exact hnd2.2.2 (List.mem_map_of_mem _ hg) (by simp [heq]) 
  · intro g hg heq
    exact hnd3.1 (by rw [heq]; exact List.mem_map_of_mem _ hg)
  · intro g hg g2 hg2 heq
    exact hnd2.2.2 (List.mem_map_of_mem _ hg2)
      (by rw [← heq]; exact List.mem_cons_of_mem _ (List.mem_map_of_mem _ hg))

/-! ## pkg/control: the conffiles file -/

/-- After a successful `WriteTo` with a non-empty list, `dir/conffiles` holds
the lines of the sorted list. -/
theorem WriteTo_conffiles_file {κ γ : Type} (FullPath : String → String) (v : Other κ γ)
    (dir : String) (w : World) (hne : v.conf.Control.Conffiles ≠ [])
    (hok : (WriteTo FullPath v dir w).1 = none) :
    (WriteTo FullPath v dir w).2.2.files (dir ++ "/conffiles") =
      some (String.join ((sortSlice (fun a b => stringLess a b) v.conf.Control.Conffiles).map
        fun p => FullPath p ++ "\n")) := by
  obtain ⟨h1, _, h3⟩ := WriteTo_ok FullPath v dir w hok
  rw [h3, copyLoop_frame _ _ _ (fun f hf => ((scriptFiles_Dst v.conf dir).1 f hf).symm)]
  rcases writeConffiles_cases FullPath v dir w with ⟨h, _⟩ | ⟨_, flt, _, hc⟩ | ⟨_, _, hc⟩
  · exact absurd h hne
  · rw [hc] at h1; simp at h1
  · rw [hc]; exact put_files_same _ _ _

/-- C1, amended: after a successful `WriteTo(dir)` with a non-empty conffiles
list, `dir/conffiles` holds one entry (`FullPath(p)` and a newline) per
configured path `p`, the entries following the ascending lexicographic order of
the configured paths: the file is the concatenation of the entries over an
arrangement `ps` of the list in which no path is less than one before it.
Where `FullPath` keeps the order of paths, the texts of the lines ascend as
well. -/
theorem WriteTo_conffiles_ascending {κ γ : Type} (FullPath : String → String) (v : Other κ γ)
    (dir : String) (w : World) (hne : v.conf.Control.Conffiles ≠ [])
    (hok : (WriteTo FullPath v dir w).1 = none) :
    ∃ ps : List String,
      List.Perm ps v.conf.Control.Conffiles ∧
      List.Pairwise (fun a b => stringLess b a = false) ps ∧
      (WriteTo FullPath v dir w).2.2.files (dir ++ "/conffiles") =
        some (String.join (ps.map fun p => FullPath p ++ "\n")) ∧
      ((∀ a b, stringLess b a = false → stringLess (FullPath b) (FullPath a) = false) →
        List.Pairwise (fun a b => stringLess b a = false) (ps.map FullPath)) := by
  refine ⟨sortSlice (fun a b => stringLess a b) v.conf.Control.Conffiles, sortSlice_perm _,
    sortSlice_sorted _, WriteTo_conffiles_file FullPath v dir w hne hok, ?_⟩
  intro hmono
  rw [List.pairwise_map]
  exact (sortSlice_sorted v.conf.Control.Conffiles).imp (fun {a b} h => hmono a b h)

/-- The input `["b", "a"]`: the first line is the entry for `a`, the second the
entry for `b`.  The input `["a", "/b"]` under `slashFullPath`: the entry for
`/b` comes first, since `/b` is less than `a`. -/
theorem WriteTo_conffiles_ascending_witness :
    (WriteTo id (NewOther exampleConfig) "stage" exampleWorld).2.2.files "stage/conffiles" =
        some "a\nb\n" ∧
    (∃ ps : List String,
      List.Perm ps ["b", "a"] ∧
      List.Pairwise (fun a b => stringLess b a = false) ps ∧
      (WriteTo id (NewOther exampleConfig) "stage" exampleWorld).2.2.files
          ("stage" ++ "/conffiles") =
        some (String.join (ps.map fun p => id p ++ "\n")) ∧
      ((∀ a b, stringLess b a = false → stringLess (id b) (id a) = false) →
        List.Pairwise (fun a b => stringLess b a = false) (ps.map id))) ∧
    (∃ ps : List String,
      List.Perm ps ["a", "/b"] ∧
      List.Pairwise (fun a b => stringLess b a = false) ps ∧
      (WriteTo slashFullPath (NewOther slashConfig) "stage" exampleWorld).2.2.files
          ("stage" ++ "/conffiles") =
        some (String.join (ps.map fun p => slashFullPath p ++ "\n")) ∧
      ((∀ a b, stringLess b a = false →
          stringLess (slashFullPath b) (slashFullPath a) = false) →
        List.Pairwise (fun a b => stringLess b a = false) (ps.map slashFullPath))) :=
  ⟨by decide,
   WriteTo_conffiles_ascending id (NewOther exampleConfig) "stage" exampleWorld (by decide)
     (by decide),
   WriteTo_conffiles_ascending slashFullPath (NewOther slashConfig) "stage" exampleWorld
     (by decide) (by decide)⟩

/-- C1 as stated fails: with a `FullPath` that adds the missing leading `/` and
the conffiles `a` and `/b`, a successful `WriteTo("stage")` sorts `/b` before
`a` and writes the lines `/b` and `/a`, which are not in ascending order. -/
theorem WriteTo_conffiles_lines_unordered :
    slashConfig.Control.Conffiles = ["a", "/b"] ∧
    (WriteTo slashFullPath (NewOther slashConfig) "stage" exampleWorld).1 = none ∧
    (WriteTo slashFullPath (NewOther slashConfig) "stage" exampleWorld).2.2.files
        "stage/conffiles" = some "/b\n/a\n" ∧
    textLines "/b\n/a\n" = ["/b", "/a"] ∧
    stringLess "/a" "/b" = true ∧
    ¬ List.Pairwise (fun a b => stringLess b a = false) (textLines "/b\n/a\n") := by
  decide

/-- C8: after a successful `WriteTo(dir)` with a non-empty conffiles list `L`,
the content of `dir/conffiles` is exactly the concatenation of `FullPath(p)`
followed by a newline over the elements of `L` sorted in ascending
lexicographic order; the sorted list is an arrangement of `L` (one line per
configured path, none added or dropped) in which no path is less than one
before it; and a configuration whose list is a permutation of `L` produces the
same content. -/
theorem WriteTo_conffiles_content {κ γ : Type} (FullPath : String → String) (v : Other κ γ)
    (dir : String) (w : World) (hne : v.conf.Control.Conffiles ≠ [])
    (hok : (WriteTo FullPath v dir w).1 = none) :
    (WriteTo FullPath v dir w).2.2.files (dir ++ "/conffiles") =
      some (String.join ((sortSlice (fun a b => stringLess a b) v.conf.Control.Conffiles).map
        fun p => FullPath p ++ "\n")) ∧
    List.Perm (sortSlice (fun a b => stringLess a b) v.conf.Control.Conffiles)
      v.conf.Control.Conffiles ∧
    (sortSlice (fun a b => stringLess a b) v.conf.Control.Conffiles).length =
      v.conf.Control.Conffiles.length ∧
    List.Pairwise (fun a b => stringLess b a = false)
      (sortSlice (fun a b => stringLess a b) v.conf.Control.Conffiles) ∧
    (∀ {κ2 γ2 : Type} (v2 : Other κ2 γ2) (dir2 : String) (w2 : World),
      List.Perm v2.conf.Control.Conffiles v.conf.Control.Conffiles →
      (WriteTo FullPath v2 dir2 w2).1 = none →
      (WriteTo FullPath v2 dir2 w2).2.2.files (dir2 ++ "/conffiles") =
        (WriteTo FullPath v dir w).2.2.files (dir ++ "/conffiles")) := by
  refine ⟨WriteTo_conffiles_file FullPath v dir w hne hok, sortSlice_perm _,
    (sortSlice_perm _).length_eq, sortSlice_sorted _, ?_⟩
  intro κ2 γ2 v2 dir2 w2 hperm hok2
  have hne2 : v2.conf.Control.Conffiles ≠ [] := by
    intro h
    rw [h] at hperm
    exact hne (List.Perm.eq_nil hperm.symm)
  rw [WriteTo_conffiles_file FullPath v2 dir2 w2 hne2 hok2,
    WriteTo_conffiles_file FullPath v dir w hne hok, sortSlice_of_perm _ _ hperm]

/-- The lists `["b", "a"]` and `["a", "b"]` give the same file, `a` then `b`. -/
theorem WriteTo_conffiles_content_witness :
    (WriteTo id (NewOther exampleConfig) "stage" exampleWorld).2.2.files
        ("stage" ++ "/conffiles") = some "a\nb\n" ∧
    (WriteTo id (NewOther (withConffiles exampleConfig ["a", "b"])) "other" exampleWorld).2.2.files
        ("other" ++ "/conffiles") =
      (WriteTo id (NewOther exampleConfig) "stage" exampleWorld).2.2.files
        ("stage" ++ "/conffiles") :=
  ⟨((WriteTo_conffiles_content id (NewOther exampleConfig) "stage" exampleWorld (by decide)
      (by decide)).1).trans (by decide),
   (WriteTo_conffiles_content id (NewOther exampleConfig) "stage" exampleWorld (by decide)
      (by decide)).2.2.2.2 (NewOther (withConffiles exampleConfig ["a", "b"])) "other"
      exampleWorld (by decide) (by decide)⟩

/-! ## pkg/control: the generated-file list -/

/-- C9: for an `Other` fresh from `NewOther`, `List()` is empty; after one
successful `WriteTo(dir)` it is `[dir + "/conffiles"]` when the configured
conffiles list is non-empty, and it is still empty, with `dir/conffiles` as it
was before the call, when the list is empty. -/
theorem NewOther_WriteTo_List {κ γ : Type} (FullPath : String → String)
    (conf : config.Config κ γ) (dir : String) (w : World)
    (hok : (WriteTo FullPath (NewOther conf) dir w).1 = none) :
    (NewOther conf).List = [] ∧
    (conf.Control.Conffiles ≠ [] →
      (WriteTo FullPath (NewOther conf) dir w).2.1.List = [dir ++ "/conffiles"]) ∧
    (conf.Control.Conffiles = [] →
      (WriteTo FullPath (NewOther conf) dir w).2.1.List = [] ∧
      (WriteTo FullPath (NewOther conf) dir w).2.2.files (dir ++ "/conffiles") =
        w.files (dir ++ "/conffiles")) := by
  obtain ⟨h1, _, h3⟩ := WriteTo_ok FullPath (NewOther conf) dir w hok
  refine ⟨rfl, ?_, ?_⟩
  · intro hne
    rw [WriteTo_receiver]
    rcases writeConffiles_cases FullPath (NewOther conf) dir w with
      ⟨h, _⟩ | ⟨_, flt, _, hc⟩ | ⟨_, _, hc⟩
    · exact absurd h hne
    · rw [hc] at h1; simp at h1
    · rw [hc]; rfl
  · intro hnil
    rw [WriteTo_receiver, h3,
      copyLoop_frame _ _ _ (fun f hf => ((scriptFiles_Dst (NewOther conf).conf dir).1 f hf).symm)]
    rcases writeConffiles_cases FullPath (NewOther conf) dir w with
      ⟨_, hc⟩ | ⟨h, _⟩ | ⟨h, _⟩
    · rw [hc]; exact ⟨rfl, rfl⟩
    · exact absurd hnil h
    · exact absurd hnil h

/-- The list after `WriteTo` on the example configuration, whose conffiles list
is not empty. -/
theorem NewOther_WriteTo_List_witness :
    (WriteTo id (NewOther exampleConfig) "stage" exampleWorld).2.1.List =
      ["stage" ++ "/conffiles"] :=
  (NewOther_WriteTo_List id exampleConfig "stage" exampleWorld (by decide)).2.1 (by decide)

/-- C3 fails on the code: with `pre.sh` configured as pre-install script and
present, a successful `WriteTo("stage")` creates `stage/preinst`, which did not
exist before, and `List()` does not contain it; the list holds
`stage/conffiles` only. -/
theorem WriteTo_List_omits_scripts :
    (WriteTo id (NewOther exampleConfig) "stage" exampleWorld).1 = none ∧
    exampleWorld.files "stage/preinst" = none ∧
    (WriteTo id (NewOther exampleConfig) "stage" exampleWorld).2.2.files "stage/preinst" =
      some "#!/bin/sh\n" ∧
    "stage/preinst" ∉ (WriteTo id (NewOther exampleConfig) "stage" exampleWorld).2.1.List ∧
    (WriteTo id (NewOther exampleConfig) "stage" exampleWorld).2.1.List = ["stage/conffiles"] := by
  decide

/-! ## pkg/control: the caller's configuration -/

/-- C10: `WriteTo` changes the caller's configuration in place.  Whatever the
call returns, with a non-empty conffiles list the configuration afterwards is
the one before with `Control.Conffiles` replaced by an arrangement of its
elements in which no path is less than one before it, every other field being
as before; with an empty list the configuration is unchanged. -/
theorem WriteTo_sorts_caller_conf {κ γ : Type} (FullPath : String → String) (v : Other κ γ) (dir : String)
    (w : World) :
    (v.conf.Control.Conffiles ≠ [] →
      List.Perm (WriteTo FullPath v dir w).2.1.conf.Control.Conffiles v.conf.Control.Conffiles ∧
      List.Pairwise (fun a b => stringLess b a = false)
        (WriteTo FullPath v dir w).2.1.conf.Control.Conffiles ∧
      (WriteTo FullPath v dir w).2.1.conf.Control.PreInstall = v.conf.Control.PreInstall ∧
      (WriteTo FullPath v dir w).2.1.conf.Control.PostInstall = v.conf.Control.PostInstall ∧
      (WriteTo FullPath v dir w).2.1.conf.Control.PreRemove = v.conf.Control.PreRemove ∧
      (WriteTo FullPath v dir w).2.1.conf.Control.PostRemove = v.conf.Control.PostRemove ∧
      (WriteTo FullPath v dir w).2.1.conf.Control.rest = v.conf.Control.rest ∧
      (WriteTo FullPath v dir w).2.1.conf.rest = v.conf.rest ∧
      (WriteTo FullPath v dir w).2.1.conf =
        withConffiles v.conf (WriteTo FullPath v dir w).2.1.conf.Control.Conffiles) ∧
    (v.conf.Control.Conffiles = [] → (WriteTo FullPath v dir w).2.1.conf = v.conf) := by
  rw [WriteTo_receiver, writeConffiles_conf]
  constructor
  · intro hne
    rw [if_neg hne]
    exact ⟨sortSlice_perm _, sortSlice_sorted _, rfl, rfl, rfl, rfl, rfl, rfl, rfl⟩
  · intro hnil
    rw [if_pos hnil]

/-- A call that fails on the write of `stage/conffiles` has sorted the caller's
list `["b", "a"]` all the same. -/
theorem WriteTo_sorts_caller_conf_witness :
    (WriteTo id (NewOther exampleConfig) "stage"
        { exampleWorld with writeFault := fun _ => some ⟨"read-only file system", none⟩ }).1 =
      some "read-only file system" ∧
    (WriteTo id (NewOther exampleConfig) "stage"
        { exampleWorld with writeFault := fun _ => some ⟨"read-only file system", none⟩
        }).2.1.conf.Control.Conffiles = ["a", "b"] ∧
    List.Perm
      (WriteTo id (NewOther exampleConfig) "stage"
        { exampleWorld with writeFault := fun _ => some ⟨"read-only file system", none⟩
        }).2.1.conf.Control.Conffiles ["b", "a"] :=
  ⟨by decide, by decide,
   ((WriteTo_sorts_caller_conf id (NewOther exampleConfig) "stage"
      { exampleWorld with writeFault := fun _ => some ⟨"read-only file system", none⟩ }).1
      (by decide)).1⟩

/-! ## pkg/control: the maintainer scripts -/

/-- The file system a successful `WriteTo` leaves, seen from one script `f` of
the list `pre ++ f :: post`: it is what the rest of the loop makes of the
file system after the step for `f`, which `pre` reached without error. -/
theorem WriteTo_ok_split {κ γ : Type} (FullPath : String → String) (v : Other κ γ)
    (dir : String) (w : World) (pre post : List copyFile) (f : copyFile)
    (hsplit : scriptFiles v.conf dir = pre ++ f :: post)
    (hok : (WriteTo FullPath v dir w).1 = none) :
    (copyLoop pre (writeConffiles FullPath v dir w).2.2).1 = none ∧
    (copyStep f (copyLoop pre (writeConffiles FullPath v dir w).2.2).2).1 = none ∧
    (WriteTo FullPath v dir w).2.2 =
      (copyLoop post (copyStep f (copyLoop pre (writeConffiles FullPath v dir w).2.2).2).2).2 := by
  obtain ⟨_, h2, h3⟩ := WriteTo_ok FullPath v dir w hok
  rw [hsplit] at h2 h3
  have hpre := copyLoop_prefix_ok pre (f :: post) _ h2
  rw [copyLoop_append pre (f :: post) _ hpre, copyLoop_cons] at h2 h3
  cases he : (copyStep f (copyLoop pre (writeConffiles FullPath v dir w).2.2).2).1 with
  | some err => rw [he] at h2; simp at h2
  | none =>
    rw [he] at h3
    exact ⟨hpre, rfl, h3⟩

/-- C2: the four maintainer scripts are `PreInstall` to `dir/preinst`,
`PostInstall` to `dir/postinst`, `PreRemove` to `dir/prerm` and `PostRemove` to
`dir/postrm`.  For each script `f` of the list, with `wi` the file system when
the loop reaches `f`: if the source exists in `wi`, a successful `WriteTo(dir)`
leaves the content of the source at the destination; if the source does not
exist (as is the case for an unset, empty path), the step for `f` returns no
error and changes nothing, and after a successful `WriteTo(dir)` the
destination is as it was before the call (not created if it did not exist).  A
source that is none of the paths `WriteTo` writes before reaching `f` is
consulted as it was before the call. -/
theorem WriteTo_scripts {κ γ : Type} (FullPath : String → String) (v : Other κ γ)
    (dir : String) (w : World) (pre post : List copyFile) (f : copyFile) (wi : World)
    (hsplit : scriptFiles v.conf dir = pre ++ f :: post)
    (hwi : wi = (copyLoop pre (writeConffiles FullPath v dir w).2.2).2) :
    scriptFiles v.conf dir =
      [⟨v.conf.Control.PreInstall, dir ++ "/preinst"⟩,
       ⟨v.conf.Control.PostInstall, dir ++ "/postinst"⟩,
       ⟨v.conf.Control.PreRemove, dir ++ "/prerm"⟩,
       ⟨v.conf.Control.PostRemove, dir ++ "/postrm"⟩] ∧
    (utils.FileExist f.Src wi = true → (WriteTo FullPath v dir w).1 = none →
      (WriteTo FullPath v dir w).2.2.files f.Dst = wi.stat f.Src ∧
      ∃ data, wi.stat f.Src = some data) ∧
    (utils.FileExist f.Src wi = false →
      copyStep f wi = (none, wi) ∧
      ((WriteTo FullPath v dir w).1 = none →
        (WriteTo FullPath v dir w).2.2.files f.Dst = w.files f.Dst)) ∧
    (f.Src = "" → utils.FileExist f.Src wi = false) ∧
    (f.Src ≠ dir ++ "/conffiles" → (∀ g ∈ pre, f.Src ≠ g.Dst) → wi.stat f.Src = w.stat f.Src) := by
  obtain ⟨hcf, hpre, hpost, _, _⟩ := split_Dst v.conf dir pre post f hsplit
  have hafter : (WriteTo FullPath v dir w).1 = none →
      (copyStep f wi).1 = none ∧
      (WriteTo FullPath v dir w).2.2.files f.Dst = (copyStep f wi).2.files f.Dst := by
    intro hok
    obtain ⟨_, hstep, hfinal⟩ := WriteTo_ok_split FullPath v dir w pre post f hsplit hok
    rw [← hwi] at hstep hfinal
    exact ⟨hstep, by rw [hfinal, copyLoop_frame post _ _ hpost]⟩
  have hbefore : wi.files f.Dst = w.files f.Dst := by
    rw [hwi, copyLoop_frame pre _ _ hpre, writeConffiles_frame FullPath v dir w _ hcf]
  refine ⟨rfl, ?_, ?_, ?_, ?_⟩
  · intro hex hok
    obtain ⟨hstep, hdst⟩ := hafter hok
    rcases copyStep_cases f wi with ⟨hno, _⟩ | ⟨_, flt, _, _, hc⟩ | ⟨data, hs, _, hc⟩
    · rw [hno] at hex; exact absurd hex (by decide)
    · rw [hc] at hstep; simp at hstep
    · rw [hdst, hc, hs]
      exact ⟨put_files_same _ _ _, data, rfl⟩
  · intro hno
    have hc : copyStep f wi = (none, wi) := by simp [copyStep, hno]
    refine ⟨hc, fun hok => ?_⟩
    rw [(hafter hok).2, hc, hbefore]
  · intro hempty
    rw [hempty]
    exact FileExist_empty wi
  · intro hsrc hsrcpre
    apply stat_eq_of_files_eq
    rw [hwi, copyLoop_frame pre _ _ hsrcpre, writeConffiles_frame FullPath v dir w _ hsrc]

/-- The pre-install script `pre.sh` of the example exists and is copied to
`stage/preinst`; the post-remove script `missing.sh` does not exist and
`stage/postrm` is not created. -/
theorem WriteTo_scripts_witness :
    (WriteTo id (NewOther exampleConfig) "stage" exampleWorld).1 = none ∧
    (WriteTo id (NewOther exampleConfig) "stage" exampleWorld).2.2.files "stage/preinst" =
      some "#!/bin/sh\n" ∧
    (WriteTo id (NewOther exampleConfig) "stage" exampleWorld).2.2.files "stage/postrm" = none :=
  ⟨by decide,
   (((WriteTo_scripts id (NewOther exampleConfig) "stage" exampleWorld []
      [⟨"", "stage/postinst"⟩, ⟨"", "stage/prerm"⟩, ⟨"missing.sh", "stage/postrm"⟩]
      ⟨"pre.sh", "stage/preinst"⟩ _ (by decide) rfl).2.1 (by decide) (by decide)).1).trans
     (by decide),
   (((WriteTo_scripts id (NewOther exampleConfig) "stage" exampleWorld
      [⟨"pre.sh", "stage/preinst"⟩, ⟨"", "stage/postinst"⟩, ⟨"", "stage/prerm"⟩] []
      ⟨"missing.sh", "stage/postrm"⟩ _ (by decide) rfl).2.2.1 (by decide)).2 (by decide)).trans
     (by decide)⟩

/-! ## pkg/control: failures -/

/-- C7: a failing write of `dir/conffiles` and a failing copy of a script make
`WriteTo(dir)` return that error and stop at once.  When the write of
`dir/conffiles` fails, the file system afterwards is the one that write left:
nothing but `dir/conffiles` differs from before the call, so no script was
copied.  When the copy of the script `f` of the list `pre ++ f :: post` fails
in the file system `wi` the loop had reached, the file system afterwards is the
one the failed copy left: every path but the destination of `f` is as in `wi`
(the conffiles file and the scripts copied before stay in place), and the
destinations of the later scripts `post` are as before the call. -/
theorem WriteTo_failure {κ γ : Type} (FullPath : String → String) (v : Other κ γ)
    (dir : String) (w : World) :
    (∀ flt, v.conf.Control.Conffiles ≠ [] → w.writeFault (dir ++ "/conffiles") = some flt →
      (WriteTo FullPath v dir w).1 = some flt.err ∧
      (WriteTo FullPath v dir w).2.2 = w.fail (dir ++ "/conffiles") flt ∧
      (∀ p, p ≠ dir ++ "/conffiles" → (WriteTo FullPath v dir w).2.2.files p = w.files p)) ∧
    (∀ (pre post : List copyFile) (f : copyFile) (e : Error) (wi : World),
      scriptFiles v.conf dir = pre ++ f :: post →
      (writeConffiles FullPath v dir w).1 = none →
      (copyLoop pre (writeConffiles FullPath v dir w).2.2).1 = none →
      wi = (copyLoop pre (writeConffiles FullPath v dir w).2.2).2 →
      (copyStep f wi).1 = some e →
      (WriteTo FullPath v dir w).1 = some e ∧
      (WriteTo FullPath v dir w).2.2 = (copyStep f wi).2 ∧
      (∀ p, p ≠ f.Dst → (WriteTo FullPath v dir w).2.2.files p = wi.files p) ∧
      (∀ g ∈ pre, (WriteTo FullPath v dir w).2.2.files g.Dst = wi.files g.Dst) ∧
      (WriteTo FullPath v dir w).2.2.files (dir ++ "/conffiles") =
        (writeConffiles FullPath v dir w).2.2.files (dir ++ "/conffiles") ∧
      (∀ g ∈ post, (WriteTo FullPath v dir w).2.2.files g.Dst = w.files g.Dst)) := by
  constructor
  · intro flt hne hflt
    have hw : writeConffiles FullPath v dir w =
        (some flt.err,
         { v with conf := (withConffiles v.conf
            (sortSlice (fun a b => stringLess a b) v.conf.Control.Conffiles)) },
         w.fail (dir ++ "/conffiles") flt) := by
      rcases writeConffiles_cases FullPath v dir w with ⟨h, _⟩ | ⟨_, flt2, h2, hc⟩ | ⟨_, h2, _⟩
      · exact absurd h hne
      · rw [hflt] at h2
        cases h2
        exact hc
      · rw [hflt] at h2; cases h2
    rw [WriteTo_eq, hw]
    exact ⟨rfl, rfl, fun p hp => fail_files_other w _ flt p hp⟩
  · intro pre post f e wi hsplit hcf hpre1 hwi hstep
    obtain ⟨hfcf, hfpre, _, hpostcf, hpostpre⟩ := split_Dst v.conf dir pre post f hsplit
    have hpre2 : (copyLoop pre (writeConffiles FullPath v dir w).2.2).2 = wi := hwi.symm
    have hloop : copyLoop (scriptFiles v.conf dir) (writeConffiles FullPath v dir w).2.2 =
        (some e, (copyStep f wi).2) := by
      rw [hsplit, copyLoop_append pre (f :: post) _ hpre1, hpre2, copyLoop_cons, hstep]
    have hfinal : (WriteTo FullPath v dir w).2.2 = (copyStep f wi).2 := by
      rw [WriteTo_eq, hcf, hloop]
    have hframe : ∀ p, p ≠ f.Dst → (WriteTo FullPath v dir w).2.2.files p = wi.files p := by
      intro p hp
      rw [hfinal]
      exact copyStep_frame f wi p hp
    refine ⟨?_, hfinal, hframe, ?_, ?_, ?_⟩
    · rw [WriteTo_eq, hcf, hloop]
    · intro g hg
      exact hframe _ (fun h => hfpre g hg h.symm)
    · rw [hframe _ hfcf.symm, ← hpre2,
        copyLoop_frame pre _ _ (fun g hg => ((scriptFiles_Dst v.conf dir).1 g
          (by rw [hsplit]; exact List.mem_append_left _ hg)).symm)]
    · intro g hg
      have hgf : g.Dst ≠ f.Dst := fun h => (split_Dst v.conf dir pre post f hsplit).2.2.1 g hg h.symm
      rw [hframe _ hgf, ← hpre2, copyLoop_frame pre _ _ (hpostpre g hg),
        writeConffiles_frame FullPath v dir w _ (hpostcf g hg)]

/-- The copy of `post.sh` fails after `stage/conffiles` and `stage/preinst` were
written: the error is returned, both files stay, an empty `stage/postinst` is
what the failed copy left, and `stage/postrm` is not created although `rm.sh`
exists. -/
theorem WriteTo_failure_witness :
    (WriteTo id (NewOther scriptedConfig) "stage" faultyWorld).1 =
      some "no space left on device" ∧
    (WriteTo id (NewOther scriptedConfig) "stage" faultyWorld).2.2.files "stage/conffiles" =
      some "a\nb\n" ∧
    (WriteTo id (NewOther scriptedConfig) "stage" faultyWorld).2.2.files "stage/preinst" =
      some "#!/bin/sh\n" ∧
    (WriteTo id (NewOther scriptedConfig) "stage" faultyWorld).2.2.files "stage/postinst" =
      some "" ∧
    (WriteTo id (NewOther scriptedConfig) "stage" faultyWorld).2.2.files "stage/postrm" =
      none :=
  have h := (WriteTo_failure id (NewOther scriptedConfig) "stage" faultyWorld).2
    [⟨"pre.sh", "stage/preinst"⟩] [⟨"", "stage/prerm"⟩, ⟨"rm.sh", "stage/postrm"⟩]
    ⟨"post.sh", "stage/postinst"⟩ "no space left on device"
    (copyLoop [⟨"pre.sh", "stage/preinst"⟩]
      (writeConffiles id (NewOther scriptedConfig) "stage" faultyWorld).2.2).2
    (by decide) (by decide) (by decide) rfl (by decide)
  ⟨h.1, h.2.2.2.2.1.trans (by decide), (h.2.2.2.1 _ (List.mem_singleton.mpr rfl)).trans (by decide),
   by decide, (h.2.2.2.2.2 ⟨"rm.sh", "stage/postrm"⟩ (by decide)).trans (by decide)⟩

end control

end DebBuilder
